import Mathlib

/-!
Shallow embedding of the Products microservice
(`src/products/products.service.ts` and its compiled copy
`dist/products/products.service.js`), a CRUD-with-soft-delete store over a
single Prisma `Product` table.

The Prisma schema (documented in the repository: `CLAUDE.md`,
`Notas/Prisma/01-instalacion.md`) is

  model Product {
    id          Int      @default(autoincrement())  -- primary key
    name        String
    price       Float
    available   Boolean  @default(true)
    createdAt   DateTime @default(now())
    updatedAt   DateTime @updatedAt
  }

The database state is a list of rows in insertion order (SQLite rowid /
primary-key order, which is what `findMany` without an ORDER BY returns),
together with the autoincrement counter. Timestamps are naturals; each
mutating operation takes the clock value `t` at which its write lands
(Prisma fills `createdAt`/`updatedAt` from `now()` / `@updatedAt`).
Prices are rationals (the claims only compare them for equality).
-/

structure Product where
  id : Nat
  name : String
  price : Rat
  available : Bool
  createdAt : Nat
  updatedAt : Nat
deriving Repr, DecidableEq

structure DB where
  rows : List Product
  nextId : Nat
deriving Repr, DecidableEq

/-- The error raised by the service (`NotFoundException` carries the id in
its message `Product with id #${id} not found`); `persistenceError` stands
for any failure bubbling up from the storage layer (e.g. Prisma `P2025`). -/
inductive ServiceError where
  | notFoundException (id : Nat)
  | persistenceError
deriving Repr, DecidableEq

/-- Payload of `create-product.dto.ts`: `{ name, price }`. -/
structure CreateProductDto where
  name : String
  price : Rat
deriving Repr, DecidableEq

/-- Payload of `update-product.dto.ts`: `PartialType(CreateProductDto)` plus an `id`
field. All fields are `Option` because a JS object at runtime may omit any
of them (`undefined` fields are ignored by the Prisma write). -/
structure UpdateProductDto where
  id : Option Nat
  name : Option String
  price : Option Rat
deriving Repr, DecidableEq

/-- Payload of `pagination.dto.ts` (`src/common`): optional positive `page` and
`limit`; the service destructures with defaults `page = 1`, `limit = 10`. -/
structure PaginationDto where
  page : Option Nat
  limit : Option Nat
deriving Repr, DecidableEq

/-- The `data` object accepted by `this.product.update({where, data})`:
any subset of the row's writable columns. -/
structure UpdateData where
  id : Option Nat
  name : Option String
  price : Option Rat
  available : Option Bool
deriving Repr, DecidableEq

/-- Applying a Prisma update `data` object to a row: provided fields are
overwritten, absent fields kept, `updatedAt` refreshed (`@updatedAt`). -/
def applyData (t : Nat) (d : UpdateData) (p : Product) : Product :=
  { id := d.id.getD p.id
    name := d.name.getD p.name
    price := d.price.getD p.price
    available := d.available.getD p.available
    createdAt := p.createdAt
    updatedAt := t }

/-- Embedding of `this.product.findFirst({ where: { id, available: true } })`. -/
def productFindFirst (db : DB) (i : Nat) : Option Product :=
  db.rows.find? (fun p => p.id == i && p.available)

/-- Embedding of `this.product.update({ where: { id }, data })`: the `where` clause is
the primary key only (no availability filter); `none` is Prisma's
record-not-found failure `P2025`. -/
def productUpdate (db : DB) (t : Nat) (i : Nat) (d : UpdateData) :
    Option (Product × DB) :=
  match db.rows.find? (fun p => p.id == i) with
  | none => none
  | some p =>
    let p' := applyData t d p
    some (p', { rows := db.rows.map (fun q => if q.id == i then p' else q)
                nextId := db.nextId })

/-- The rows visible through the availability filter
(`where: { available: true }`). -/
def availableRows (db : DB) : List Product :=
  db.rows.filter (fun p => p.available)

/-- Embedding of `Math.ceil(totalProducts / limit)` on naturals (exact for the integer
counts involved). -/
def ceilDiv (a b : Nat) : Nat :=
  (a + b - 1) / b

structure FindAllMeta where
  page : Nat
  total : Nat
  lastPage : Nat
deriving Repr, DecidableEq

structure FindAllResult where
  data : List Product
  meta : FindAllMeta
deriving Repr, DecidableEq

namespace ProductsService

/-- Method `ProductsService.create`: `this.product.create({ data: dto })` inserts
a row with the next autoincrement id, `available = true`,
`createdAt = updatedAt = now()`, and returns the created record. -/
def create (db : DB) (t : Nat) (dto : CreateProductDto) : Product × DB :=
  let p : Product :=
    { id := db.nextId, name := dto.name, price := dto.price
      available := true, createdAt := t, updatedAt := t }
  (p, { rows := db.rows ++ [p], nextId := db.nextId + 1 })

/-- Method `ProductsService.findAll`: counts available rows, computes
`lastPage = Math.ceil(total / limit)`, and returns the available rows with
`skip = (page - 1) * limit`, `take = limit`. -/
def findAll (db : DB) (dto : PaginationDto) : FindAllResult :=
  let limit := dto.limit.getD 10
  let page := dto.page.getD 1
  let totalProducts := (availableRows db).length
  let lastPage := ceilDiv totalProducts limit
  { data := ((availableRows db).drop ((page - 1) * limit)).take limit
    meta := { page := page, total := totalProducts, lastPage := lastPage } }

/-- Method `ProductsService.findOne`: `findFirst({ where: { id, available: true } })`,
throwing `NotFoundException` when no row matches. -/
def findOne (db : DB) (i : Nat) : Except ServiceError Product :=
  match productFindFirst db i with
  | none => .error (.notFoundException i)
  | some p => .ok p

/-- Method `ProductsService.update` (TypeScript source): destructures
`const { id: __, ...data } = updateProductDto` (stripping `id`), verifies
existence via `findOne`, then writes `data`. The pair's second component
is the table after the call (unchanged when the call throws). -/
def update (db : DB) (t : Nat) (i : Nat) (dto : UpdateProductDto) :
    Except ServiceError Product × DB :=
  match findOne db i with
  | .error e => (.error e, db)
  | .ok _ =>
    match productUpdate db t i
        { id := none, name := dto.name, price := dto.price
          available := none } with
    | none => (.error .persistenceError, db)
    | some (p, db') => (.ok p, db')

/-- Method `ProductsService.remove`: verifies existence via `findOne`, then soft
deletes by writing `data: { available: false }`. -/
def remove (db : DB) (t : Nat) (i : Nat) :
    Except ServiceError Product × DB :=
  match findOne db i with
  | .error e => (.error e, db)
  | .ok _ =>
    match productUpdate db t i
        { id := none, name := none, price := none, available := some false } with
    | none => (.error .persistenceError, db)
    | some (p, db') => (.ok p, db')

/-- Method `ProductsService.update` as compiled in `dist/products/products.service.js`:
identical except that the whole DTO, including its `id` field, is passed as
the write's `data`. -/
def distUpdate (db : DB) (t : Nat) (i : Nat) (dto : UpdateProductDto) :
    Except ServiceError Product × DB :=
  match findOne db i with
  | .error e => (.error e, db)
  | .ok _ =>
    match productUpdate db t i
        { id := dto.id, name := dto.name, price := dto.price
          available := none } with
    | none => (.error .persistenceError, db)
    | some (p, db') => (.ok p, db')

end ProductsService

/-! ### Concrete states used to instantiate the theorems -/

def sampleProduct : Product :=
  { id := 1, name := "Laptop", price := 999, available := true
    createdAt := 0, updatedAt := 0 }

def sampleProduct2 : Product :=
  { id := 2, name := "Mouse", price := 25, available := true
    createdAt := 0, updatedAt := 0 }

def sampleDB : DB := { rows := [sampleProduct, sampleProduct2], nextId := 3 }

def emptyDB : DB := { rows := [], nextId := 1 }

/-! ### Arithmetic facts about `ceilDiv` (the embedding of `Math.ceil(total/limit)`) -/

lemma ceilDiv_spec (a b : Nat) (hb : 1 ≤ b) (ha : 1 ≤ a) :
    a ≤ b * ceilDiv a b ∧ b * ceilDiv a b < a + b ∧ 1 ≤ ceilDiv a b := by
  have hq1 : 1 ≤ ceilDiv a b := by
    rw [ceilDiv, Nat.one_le_div_iff (by omega)]
    omega
  have hmod := Nat.div_add_mod (a + b - 1) b
  have hlt : (a + b - 1) % b < b := Nat.mod_lt _ (by omega)
  have key : a ≤ b * ((a + b - 1) / b) ∧ b * ((a + b - 1) / b) < a + b := by
    generalize hP : b * ((a + b - 1) / b) = P at hmod ⊢
    generalize hR : (a + b - 1) % b = r at hmod hlt
    omega
  simp only [ceilDiv]
  exact ⟨key.1, key.2, hq1⟩

lemma ceilDiv_eq_ceil (a b : Nat) (hb : 1 ≤ b) :
    ceilDiv a b = ⌈(a : ℚ) / (b : ℚ)⌉₊ := by
  rcases Nat.eq_zero_or_pos a with rfl | ha
  · have h0 : ceilDiv 0 b = 0 := by
      rw [ceilDiv]
      exact Nat.div_eq_of_lt (by omega)
    rw [h0, Nat.cast_zero, zero_div, Nat.ceil_zero]
  · obtain ⟨h1, h2, h3⟩ := ceilDiv_spec a b hb ha
    have hbQ : (0 : ℚ) < (b : ℚ) := by exact_mod_cast (by omega : 0 < b)
    symm
    rw [Nat.ceil_eq_iff (by omega : ceilDiv a b ≠ 0)]
    constructor
    · rw [lt_div_iff₀ hbQ]
      have hN : (ceilDiv a b - 1) * b < a := by
        have hsub : (ceilDiv a b - 1) * b = b * ceilDiv a b - b := by
          rw [Nat.sub_mul, one_mul, Nat.mul_comm]
        have hble : b ≤ b * ceilDiv a b := by
          calc b = b * 1 := by rw [Nat.mul_one]
          _ ≤ b * ceilDiv a b := Nat.mul_le_mul_left b h3
        generalize hP : b * ceilDiv a b = P at hsub hble h1 h2
        omega
      exact_mod_cast hN
    · rw [div_le_iff₀ hbQ]
      have hN : a ≤ ceilDiv a b * b := by rw [Nat.mul_comm]; exact h1
      exact_mod_cast hN

lemma ceilDiv_eq_zero_iff (a b : Nat) (hb : 1 ≤ b) :
    ceilDiv a b = 0 ↔ a = 0 := by
  rw [ceilDiv, Nat.div_eq_zero_iff (by omega : 0 < b)]
  omega

lemma le_mul_of_ceilDiv_le (a b m : Nat) (hb : 1 ≤ b) (h : ceilDiv a b ≤ m) :
    a ≤ m * b := by
  rcases Nat.eq_zero_or_pos a with rfl | ha
  · exact Nat.zero_le _
  · obtain ⟨h1, _, _⟩ := ceilDiv_spec a b hb ha
    calc a ≤ b * ceilDiv a b := h1
    _ ≤ b * m := Nat.mul_le_mul_left b h
    _ = m * b := Nat.mul_comm b m

lemma ceilDiv_step (b n : Nat) (hb : 1 ≤ b) (hn : 1 ≤ n) :
    ceilDiv n b = ceilDiv (n - b) b + 1 := by
  rcases le_or_lt n b with h | h
  · have h1 : n - b = 0 := by omega
    have h2 : ceilDiv 0 b = 0 := by
      rw [ceilDiv]
      exact Nat.div_eq_of_lt (by omega)
    rw [h1, h2, ceilDiv]
    have h3 : n + b - 1 = b * 1 + (n - 1) := by omega
    rw [h3, Nat.mul_add_div (by omega), Nat.div_eq_of_lt (by omega)]
  · have h4 : n + b - 1 = (n - b + b - 1) + b := by omega
    rw [ceilDiv, h4, Nat.add_div_right _ (by omega), ceilDiv]

/-- Concatenating the chunks `take limit (drop (i * limit) l)` for
`i = 0, ..., ceilDiv l.length limit - 1` restores `l`: the offset
pagination scheme of `findAll` covers the filtered list exactly. -/
lemma range_flatMap_chunks {α : Type} (limit : Nat) (hl : 1 ≤ limit) :
    ∀ (n : Nat) (l : List α), l.length ≤ n →
      (List.range (ceilDiv l.length limit)).flatMap
        (fun i => (l.drop (i * limit)).take limit) = l := by
  intro n
  induction n with
  | zero =>
    intro l hlen
    have h0 : l = [] := List.length_eq_zero.mp (by omega)
    subst h0
    simp [ceilDiv, Nat.div_eq_of_lt (by omega : limit - 1 < limit)]
  | succ n ih =>
    intro l hlen
    rcases l with _ | ⟨a, tl⟩
    · simp [ceilDiv, Nat.div_eq_of_lt (by omega : limit - 1 < limit)]
    · have hpos : 1 ≤ (a :: tl).length := by simp
      rw [ceilDiv_step limit _ hl hpos, List.range_succ_eq_map]
      rw [List.flatMap_cons, List.flatMap_map]
      have hfirst : ((a :: tl).drop (0 * limit)).take limit =
          (a :: tl).take limit := by
        simp
      rw [hfirst]
      have hfun : (fun i : Nat =>
            List.take limit (List.drop (i.succ * limit) (a :: tl))) =
          (fun i : Nat =>
            List.take limit (List.drop (i * limit)
              (List.drop limit (a :: tl)))) := by
        funext i
        rw [List.drop_drop]
        congr 2
        rw [Nat.succ_mul]
        omega
      rw [hfun]
      have hlen2 : (a :: tl).length - limit =
          (List.drop limit (a :: tl)).length := by
        rw [List.length_drop]
      rw [hlen2]
      have hrest := ih (List.drop limit (a :: tl)) (by
        simp only [List.length_drop, List.length_cons] at hlen ⊢
        omega)
      rw [hrest, List.take_append_drop]

/-! ### Facts about `find?` over the product table -/

/-- When every id in the table is below `n`, no `where`-clause mentioning
`id = n` can match, whatever else it also filters on. -/
lemma find?_id_ge_none (l : List Product) (n : Nat)
    (hb : ∀ p ∈ l, p.id < n) (g : Product → Bool) :
    l.find? (fun p => p.id == n && g p) = none := by
  rw [List.find?_eq_none]
  intro p hp
  have hlt := hb p hp
  simp only [Bool.and_eq_true, beq_iff_eq]
  rintro ⟨h1, -⟩
  omega

lemma find?_id_ge_none' (l : List Product) (n : Nat)
    (hb : ∀ p ∈ l, p.id < n) :
    l.find? (fun p => p.id == n) = none := by
  rw [List.find?_eq_none]
  intro p hp
  have hlt := hb p hp
  simp only [beq_iff_eq]
  omega

/-- When the table's ids are unique, the `where id = i` lookup finds the
unique row with that id, whatever else the clause also filters on, as long
as that row satisfies it. -/
lemma find?_id_of_nodup {l : List Product}
    (h : (l.map Product.id).Nodup) {r : Product} (hr : r ∈ l) {i : Nat}
    (hid : r.id = i) (g : Product → Bool) (hg : g r = true) :
    l.find? (fun p => p.id == i && g p) = some r := by
  induction l with
  | nil => cases hr
  | cons a tl ih =>
    simp only [List.map_cons, List.nodup_cons] at h
    by_cases ha : a.id = i
    · have hra : r = a := by
        rcases List.mem_cons.mp hr with rfl | hrtl
        · rfl
        · exact absurd (ha ▸ hid ▸ List.mem_map_of_mem Product.id hrtl) h.1
      subst hra
      exact List.find?_cons_of_pos tl (by simp [hid, hg])
    · rw [List.find?_cons_of_neg tl (by simp [ha])]
      rcases List.mem_cons.mp hr with rfl | hrtl
      · exact absurd hid ha
      · exact ih h.2 hrtl

lemma find?_id_of_nodup' {l : List Product}
    (h : (l.map Product.id).Nodup) {r : Product} (hr : r ∈ l) {i : Nat}
    (hid : r.id = i) :
    l.find? (fun p => p.id == i) = some r := by
  induction l with
  | nil => cases hr
  | cons a tl ih =>
    simp only [List.map_cons, List.nodup_cons] at h
    by_cases ha : a.id = i
    · have hra : r = a := by
        rcases List.mem_cons.mp hr with rfl | hrtl
        · rfl
        · exact absurd (ha ▸ hid ▸ List.mem_map_of_mem Product.id hrtl) h.1
      subst hra
      exact List.find?_cons_of_pos tl (by simp [hid])
    · rw [List.find?_cons_of_neg tl (by simp [ha])]
      rcases List.mem_cons.mp hr with rfl | hrtl
      · exact absurd hid ha
      · exact ih h.2 hrtl

/-! ### Claim theorems -/

/-- The conclusion of C5 at a given state and id: `findOne` succeeds only
with a row of the table that matches the id and is available, and fails
with `NotFoundException` carrying the id exactly when no such row exists. -/
def FindOneRaisesIff (db : DB) (i : Nat) : Prop :=
  (∀ p, ProductsService.findOne db i = .ok p →
    p.id = i ∧ p.available = true ∧ p ∈ db.rows) ∧
  (ProductsService.findOne db i = .error (.notFoundException i) ↔
    ∀ p ∈ db.rows, ¬(p.id = i ∧ p.available = true))

/-- C5: `findOne(id)` returns a row matching `id` with `available = true`
when one exists, and fails with `NotFoundError` carrying the id exactly
when no such row exists (never-existed and soft-deleted alike). -/
theorem claim_C5_findOne_raises_iff (db : DB) (i : Nat) :
    FindOneRaisesIff db i := by
  unfold FindOneRaisesIff ProductsService.findOne productFindFirst
  cases hfind : db.rows.find? (fun p => p.id == i && p.available) with
  | none =>
    rw [List.find?_eq_none] at hfind
    constructor
    · intro p hp
      simp at hp
    · simp only [true_iff]
      intro p hp hcontra
      have := hfind p hp
      simp [hcontra.1, hcontra.2] at this
  | some p0 =>
    have hprop := List.find?_some hfind
    have hmem := List.mem_of_find?_eq_some hfind
    simp only [Bool.and_eq_true, beq_iff_eq] at hprop
    constructor
    · intro p hp
      simp only [Except.ok.injEq] at hp
      exact hp ▸ ⟨hprop.1, hprop.2, hmem⟩
    · simp only [reduceCtorEq, false_iff, not_forall]
      exact ⟨p0, hmem, by simp [hprop.1, hprop.2]⟩

/-- The conclusion of C3 at a given state, page and limit: `lastPage` is
the rational ceiling of `total / limit`, vanishes exactly when `total`
does, and `total` counts the rows with `available = true`. -/
def LastPageCorrect (db : DB) (page limit : Nat) : Prop :=
  (ProductsService.findAll db ⟨some page, some limit⟩).meta.lastPage =
    ⌈((ProductsService.findAll db ⟨some page, some limit⟩).meta.total : ℚ) /
      (limit : ℚ)⌉₊ ∧
  ((ProductsService.findAll db ⟨some page, some limit⟩).meta.lastPage = 0 ↔
    (ProductsService.findAll db ⟨some page, some limit⟩).meta.total = 0) ∧
  (ProductsService.findAll db ⟨some page, some limit⟩).meta.total =
    (db.rows.filter (fun p => p.available)).length

/-- C3: `findAll` returns `meta.lastPage = ceil(meta.total / limit)`,
`meta.lastPage = 0` iff `meta.total = 0`, and `meta.total` is the number
of rows with `available = true`. -/
theorem claim_C3_lastPage_correct (db : DB) (page limit : Nat)
    (hl : 1 ≤ limit) : LastPageCorrect db page limit := by
  unfold LastPageCorrect ProductsService.findAll
  simp only [Option.getD_some]
  refine ⟨ceilDiv_eq_ceil _ _ hl, ceilDiv_eq_zero_iff _ _ hl, rfl⟩

theorem claim_C3_witness :
    1 ≤ 3 ∧ LastPageCorrect sampleDB 1 3 :=
  ⟨by decide, claim_C3_lastPage_correct sampleDB 1 3 (by decide)⟩

/-- The conclusion of C8 at a given state, page and limit: an empty page
of data with the metadata still reporting the requested page, the true
count of available rows and the true last page. -/
def OutOfRangeOk (db : DB) (page limit : Nat) : Prop :=
  (ProductsService.findAll db ⟨some page, some limit⟩).data = [] ∧
  (ProductsService.findAll db ⟨some page, some limit⟩).meta.total =
    (db.rows.filter (fun p => p.available)).length ∧
  (ProductsService.findAll db ⟨some page, some limit⟩).meta.lastPage =
    ceilDiv (db.rows.filter (fun p => p.available)).length limit ∧
  (ProductsService.findAll db ⟨some page, some limit⟩).meta.page = page

/-- C8: requesting a page beyond `lastPage` is not an error: `findAll`
returns an empty `data` array while `meta` still reports the requested
page, the true total and the true last page. -/
theorem claim_C8_out_of_range_pages (db : DB) (page limit : Nat)
    (hl : 1 ≤ limit)
    (hp : (ProductsService.findAll db ⟨some page, some limit⟩).meta.lastPage
      < page) :
    OutOfRangeOk db page limit := by
  unfold OutOfRangeOk ProductsService.findAll
  unfold ProductsService.findAll at hp
  simp only [Option.getD_some] at hp ⊢
  refine ⟨?_, rfl, rfl, trivial⟩
  have hlen : (availableRows db).length ≤ (page - 1) * limit :=
    le_mul_of_ceilDiv_le _ _ _ hl (by omega)
  rw [List.drop_eq_nil_of_le hlen, List.take_nil]

theorem claim_C8_witness :
    (1 ≤ 2 ∧
      (ProductsService.findAll sampleDB ⟨some 5, some 2⟩).meta.lastPage < 5) ∧
    OutOfRangeOk sampleDB 5 2 :=
  ⟨⟨by decide, by decide⟩,
    claim_C8_out_of_range_pages sampleDB 5 2 (by decide) (by decide)⟩

/-- The concatenation of the `data` arrays of `findAll(1, limit)` through
`findAll(lastPage, limit)`. -/
def pagesConcat (db : DB) (limit : Nat) : List Product :=
  (List.range
      (ProductsService.findAll db ⟨some 1, some limit⟩).meta.lastPage).flatMap
    (fun i => (ProductsService.findAll db ⟨some (i + 1), some limit⟩).data)

/-- The conclusion of C2: scanning all pages yields exactly the available
rows, in order, and (ids being unique, as the primary key guarantees)
without duplicates. -/
def PaginationCoverage (db : DB) (limit : Nat) : Prop :=
  pagesConcat db limit = db.rows.filter (fun p => p.available) ∧
  ((db.rows.map Product.id).Nodup → (pagesConcat db limit).Nodup)

/-- C2: for every state and every page size `limit ≥ 1`, concatenating
`findAll(1,limit).data, ..., findAll(lastPage,limit).data` gives every
available product exactly once — no duplicates, no omissions. -/
theorem claim_C2_pagination_coverage (db : DB) (limit : Nat)
    (hl : 1 ≤ limit) : PaginationCoverage db limit := by
  have hcov : pagesConcat db limit = db.rows.filter (fun p => p.available) := by
    unfold pagesConcat ProductsService.findAll
    simp only [Option.getD_some, Nat.add_sub_cancel]
    exact range_flatMap_chunks limit hl (availableRows db).length _ le_rfl
  refine ⟨hcov, fun hnodup => ?_⟩
  rw [hcov]
  exact (List.Nodup.of_map _ hnodup).filter _

theorem claim_C2_witness : 1 ≤ 2 ∧ PaginationCoverage sampleDB 2 :=
  ⟨by decide, claim_C2_pagination_coverage sampleDB 2 (by decide)⟩

/-- The conclusion of C1 for a state `db`, creation and removal times,
creation payload, and a page request: after creating a product and then
removing it, `findOne` on its id fails with the not-found error, and no
element of any `findAll` page carries its id. -/
def SoftDeleteInvisible (db : DB) (t0 t1 : Nat) (dto : CreateProductDto)
    (page limit : Nat) : Prop :=
  ProductsService.findOne
      (ProductsService.remove (ProductsService.create db t0 dto).2 t1
        (ProductsService.create db t0 dto).1.id).2
      (ProductsService.create db t0 dto).1.id =
    .error (.notFoundException (ProductsService.create db t0 dto).1.id) ∧
  ∀ r ∈ (ProductsService.findAll
      (ProductsService.remove (ProductsService.create db t0 dto).2 t1
        (ProductsService.create db t0 dto).1.id).2
      ⟨some page, some limit⟩).data,
    r.id ≠ (ProductsService.create db t0 dto).1.id

/-- Removing a freshly appended available row (whose id is fresh for the
rest of the table) succeeds and flips exactly its `available` flag,
refreshing `updatedAt`. -/
lemma remove_fresh (rows : List Product) (nid t0 t1 : Nat) (nm : String)
    (pr : Rat) (hb : ∀ p ∈ rows, p.id < nid) :
    ProductsService.remove
        { rows := rows ++ [⟨nid, nm, pr, true, t0, t0⟩], nextId := nid + 1 }
        t1 nid =
      (.ok ⟨nid, nm, pr, false, t0, t1⟩,
       { rows := rows ++ [⟨nid, nm, pr, false, t0, t1⟩]
         nextId := nid + 1 }) := by
  have hfind1 : (rows ++ [(⟨nid, nm, pr, true, t0, t0⟩ : Product)]).find?
      (fun p => p.id == nid && p.available) =
      some ⟨nid, nm, pr, true, t0, t0⟩ := by
    rw [List.find?_append, find?_id_ge_none rows nid hb]
    simp
  have hfind2 : (rows ++ [(⟨nid, nm, pr, true, t0, t0⟩ : Product)]).find?
      (fun p => p.id == nid) = some ⟨nid, nm, pr, true, t0, t0⟩ := by
    rw [List.find?_append, find?_id_ge_none' rows nid hb]
    simp
  have hmap : (rows ++ [(⟨nid, nm, pr, true, t0, t0⟩ : Product)]).map
      (fun q => if q.id == nid then (⟨nid, nm, pr, false, t0, t1⟩ : Product)
        else q) =
      rows ++ [⟨nid, nm, pr, false, t0, t1⟩] := by
    rw [List.map_append]
    congr 1
    · conv_rhs => rw [← List.map_id rows]
      apply List.map_congr_left
      intro q hq
      have hlt := hb q hq
      have hne : (q.id == nid) = false := by
        simp only [beq_eq_false_iff_ne, ne_eq]
        omega
      simp [hne]
    · simp
  unfold ProductsService.remove ProductsService.findOne productFindFirst
    productUpdate
  rw [hfind1]
  simp only [hfind2]
  simp only [show applyData t1 ⟨none, none, none, some false⟩
      (⟨nid, nm, pr, true, t0, t0⟩ : Product) =
      ⟨nid, nm, pr, false, t0, t1⟩ from rfl, hmap]

/-- Lemma: `findOne` misses an id that is fresh for `rows` and carried only by an
unavailable row. -/
lemma findOne_unavailable_append (rows : List Product) (nid : Nat)
    (q : Product) (hb : ∀ p ∈ rows, p.id < nid)
    (hq : q.available = false) :
    ProductsService.findOne { rows := rows ++ [q], nextId := nid + 1 } nid =
      .error (.notFoundException nid) := by
  unfold ProductsService.findOne productFindFirst
  have hnone : (rows ++ [q]).find? (fun p => p.id == nid && p.available) =
      none := by
    rw [List.find?_append, find?_id_ge_none rows nid hb]
    simp [hq]
  rw [hnone]

/-- No `findAll` page over `rows ++ [q]` (with `q` unavailable and `nid`
fresh for `rows`) contains a row with id `nid`. -/
lemma findAll_no_id_append (rows : List Product) (nid : Nat) (q : Product)
    (page limit : Nat) (hb : ∀ p ∈ rows, p.id < nid)
    (hq : q.available = false) :
    ∀ r ∈ (ProductsService.findAll { rows := rows ++ [q], nextId := nid + 1 }
        ⟨some page, some limit⟩).data, r.id ≠ nid := by
  intro r hr
  unfold ProductsService.findAll at hr
  simp only [Option.getD_some] at hr
  have hr2 : r ∈ availableRows { rows := rows ++ [q], nextId := nid + 1 } :=
    List.mem_of_mem_drop (List.mem_of_mem_take hr)
  unfold availableRows at hr2
  have hr3 := List.mem_filter.mp hr2
  have hav : r.available = true := by simpa using hr3.2
  rcases List.mem_append.mp hr3.1 with hmem | hmem
  · have := hb r hmem
    omega
  · have hrq : r = q := by simpa using hmem
    rw [hrq, hq] at hav
    cases hav

/-- C1: a product that is created and then removed is invisible: `findOne`
on its id fails with `NotFoundError` and it appears in no `findAll` page.
The hypothesis is the autoincrement invariant: every id in the table is
below the next id to be assigned. -/
theorem claim_C1_soft_delete_invisibility (db : DB) (t0 t1 : Nat)
    (dto : CreateProductDto) (page limit : Nat)
    (hb : ∀ p ∈ db.rows, p.id < db.nextId) :
    SoftDeleteInvisible db t0 t1 dto page limit := by
  unfold SoftDeleteInvisible
  rw [show (ProductsService.create db t0 dto).1.id = db.nextId from rfl]
  rw [show (ProductsService.create db t0 dto).2 =
      ({ rows := db.rows ++ [⟨db.nextId, dto.name, dto.price, true, t0, t0⟩]
         nextId := db.nextId + 1 } : DB) from rfl]
  rw [remove_fresh db.rows db.nextId t0 t1 dto.name dto.price hb]
  constructor
  · exact findOne_unavailable_append db.rows db.nextId
      ⟨db.nextId, dto.name, dto.price, false, t0, t1⟩ hb rfl
  · exact findAll_no_id_append db.rows db.nextId
      ⟨db.nextId, dto.name, dto.price, false, t0, t1⟩ page limit hb rfl

theorem claim_C1_witness :
    (∀ p ∈ emptyDB.rows, p.id < emptyDB.nextId) ∧
    SoftDeleteInvisible emptyDB 0 1 { name := "Laptop", price := 999 } 1 10 :=
  ⟨by decide,
    claim_C1_soft_delete_invisibility emptyDB 0 1
      { name := "Laptop", price := 999 } 1 10 (by decide)⟩

/-- Success shape of `remove`: it found a row `p1` with the requested id
and replaced every row carrying that id by `p1` with `available := false`
and `updatedAt := t`. -/
lemma remove_ok_shape (db : DB) (t i : Nat) {q : Product} {db' : DB}
    (hok : ProductsService.remove db t i = (.ok q, db')) :
    ∃ p1, db.rows.find? (fun p => p.id == i) = some p1 ∧
      q = applyData t ⟨none, none, none, some false⟩ p1 ∧
      db' = { rows := db.rows.map (fun p =>
                if p.id == i then
                  applyData t ⟨none, none, none, some false⟩ p1
                else p),
              nextId := db.nextId } := by
  unfold ProductsService.remove at hok
  cases hfo : ProductsService.findOne db i with
  | error e =>
    rw [hfo] at hok
    simp at hok
  | ok p0 =>
    rw [hfo] at hok
    unfold productUpdate at hok
    cases hfind : db.rows.find? (fun p => p.id == i) with
    | none =>
      rw [hfind] at hok
      simp at hok
    | some p1 =>
      rw [hfind] at hok
      simp only [Prod.mk.injEq, Except.ok.injEq] at hok
      exact ⟨p1, rfl, hok.1.symm, hok.2.symm⟩

/-- After a write that stored `available := false` into every row carrying
id `i`, `findOne i` fails: the availability filter hides the row. -/
lemma findOne_unavailable_map (rows : List Product) (i t nid : Nat)
    (d : UpdateData) (hd : d.available = some false) (p1 : Product) :
    ProductsService.findOne
      { rows := rows.map (fun p => if p.id == i then applyData t d p1 else p)
        nextId := nid } i = .error (.notFoundException i) := by
  unfold ProductsService.findOne productFindFirst
  have hnone : (rows.map
      (fun p => if p.id == i then applyData t d p1 else p)).find?
      (fun p => p.id == i && p.available) = none := by
    rw [List.find?_eq_none]
    intro x hx
    obtain ⟨p, hp, rfl⟩ := List.mem_map.mp hx
    by_cases hpi : p.id = i
    · simp [hpi, applyData, hd]
    · simp [hpi]
  rw [hnone]

/-- The conclusion of C4: on an id with no available row, `update` and
`remove` both fail with the not-found error and return the table
unchanged; and a second `remove` right after a successful one fails with
the not-found error. -/
def NotFoundNoChange (db : DB) (t t' i : Nat) (dto : UpdateProductDto) :
    Prop :=
  ((∀ r ∈ db.rows, ¬(r.id = i ∧ r.available = true)) →
    ProductsService.update db t i dto =
      (.error (.notFoundException i), db) ∧
    ProductsService.remove db t i = (.error (.notFoundException i), db)) ∧
  (∀ q db', ProductsService.remove db t i = (.ok q, db') →
    (ProductsService.remove db' t' i).1 = .error (.notFoundException i))

/-- C4: `update` and `remove` on an id with no available row (never
existed or already soft-deleted) fail with `NotFoundError` and change no
row; in particular the second of two consecutive `remove` calls on an
available product fails with `NotFoundError`. -/
theorem claim_C4_update_remove_not_found (db : DB) (t t' i : Nat)
    (dto : UpdateProductDto) : NotFoundNoChange db t t' i dto := by
  constructor
  · intro h
    have hnone : productFindFirst db i = none := by
      unfold productFindFirst
      rw [List.find?_eq_none]
      intro p hp
      have hnot := h p hp
      simp only [Bool.and_eq_true, beq_iff_eq]
      rintro ⟨h1, h2⟩
      exact hnot ⟨h1, h2⟩
    have hfo : ProductsService.findOne db i =
        .error (.notFoundException i) := by
      unfold ProductsService.findOne
      rw [hnone]
    constructor
    · unfold ProductsService.update
      rw [hfo]
    · unfold ProductsService.remove
      rw [hfo]
  · intro q db' hok
    obtain ⟨p1, hfind, hq, hdb'⟩ := remove_ok_shape db t i hok
    unfold ProductsService.remove
    rw [hdb', findOne_unavailable_map db.rows i t db.nextId
      ⟨none, none, none, some false⟩ rfl p1]

theorem claim_C4_witness :
    (∀ r ∈ emptyDB.rows, ¬(r.id = 7 ∧ r.available = true)) ∧
    (ProductsService.update emptyDB 0 7 ⟨none, none, none⟩ =
      (.error (.notFoundException 7), emptyDB) ∧
     ProductsService.remove emptyDB 0 7 =
      (.error (.notFoundException 7), emptyDB)) :=
  ⟨by decide,
    (claim_C4_update_remove_not_found emptyDB 0 0 7 ⟨none, none, none⟩).1
      (by decide)⟩

/-- The conclusion of C6: updating the price of the (unique) available row
`r` with id `i` succeeds, returning `r` with only `price` and `updatedAt`
changed, and the table keeps every other row untouched (only rows carrying
id `i` — that is, only `r` — are replaced). -/
def UpdatePriceFrame (db : DB) (t i : Nat) (X : Rat) (r : Product) : Prop :=
  ProductsService.update db t i ⟨none, none, some X⟩ =
    (.ok { r with price := X, updatedAt := t },
     { rows := db.rows.map (fun q =>
         if q.id == i then { r with price := X, updatedAt := t } else q),
       nextId := db.nextId })

/-- C6: for an available product `r` with id `i` in a table with unique
ids, `update(i, {price: X})` changes only `price` (to `X`) and `updatedAt`
(to the write time) of that row; `name`, `createdAt` and `available` are
kept, and no other row is modified. -/
theorem claim_C6_update_price_frame (db : DB) (t i : Nat) (X : Rat)
    (r : Product) (hnodup : (db.rows.map Product.id).Nodup)
    (hr : r ∈ db.rows) (hid : r.id = i) (hav : r.available = true) :
    UpdatePriceFrame db t i X r := by
  unfold UpdatePriceFrame ProductsService.update ProductsService.findOne
    productFindFirst productUpdate
  rw [find?_id_of_nodup hnodup hr hid _ hav,
    find?_id_of_nodup' hnodup hr hid]
  simp only [show applyData t ⟨none, none, some X, none⟩ r =
    { r with price := X, updatedAt := t } from rfl]

theorem claim_C6_witness :
    ((sampleDB.rows.map Product.id).Nodup ∧
      sampleProduct ∈ sampleDB.rows ∧ sampleProduct.id = 1 ∧
      sampleProduct.available = true) ∧
    UpdatePriceFrame sampleDB 7 1 500 sampleProduct :=
  ⟨⟨by decide, by decide, by decide, by decide⟩,
    claim_C6_update_price_frame sampleDB 7 1 500 sampleProduct
      (by decide) (by decide) (by decide) (by decide)⟩

/-- The conclusion of C7: `update` with any patch behaves exactly as with
the same patch stripped of its `id` field; a successful call returns a row
that still carries the requested id; and the stored ids are unchanged
whatever the patch carried. -/
def PatchIdIgnored (db : DB) (t i : Nat) (dto : UpdateProductDto) : Prop :=
  ProductsService.update db t i dto =
    ProductsService.update db t i ⟨none, dto.name, dto.price⟩ ∧
  (∀ p db', ProductsService.update db t i dto = (.ok p, db') → p.id = i) ∧
  (ProductsService.update db t i dto).2.rows.map Product.id =
    db.rows.map Product.id

/-- C7: the `id` field of an update patch is ignored, not rejected: the
source strips it before the write, so the call behaves exactly as if the
patch had no `id` field and the stored row keeps its original id. -/
theorem claim_C7_patch_id_ignored (db : DB) (t i : Nat)
    (dto : UpdateProductDto) : PatchIdIgnored db t i dto := by
  refine ⟨rfl, ?_, ?_⟩
  · intro p db' hok
    unfold ProductsService.update at hok
    cases hfo : ProductsService.findOne db i with
    | error e =>
      rw [hfo] at hok
      simp at hok
    | ok p0 =>
      rw [hfo] at hok
      unfold productUpdate at hok
      cases hfind : db.rows.find? (fun q => q.id == i) with
      | none =>
        rw [hfind] at hok
        simp at hok
      | some p1 =>
        rw [hfind] at hok
        simp only [Prod.mk.injEq, Except.ok.injEq] at hok
        have hp1 : p1.id = i := by simpa using List.find?_some hfind
        rw [← hok.1]
        simpa [applyData] using hp1
  · unfold ProductsService.update
    cases hfo : ProductsService.findOne db i with
    | error e => rfl
    | ok p0 =>
      unfold productUpdate
      cases hfind : db.rows.find? (fun q => q.id == i) with
      | none => rfl
      | some p1 =>
        have hp1 : p1.id = i := by simpa using List.find?_some hfind
        simp only [List.map_map]
        apply List.map_congr_left
        intro q hq
        by_cases h : q.id = i
        · simp [Function.comp, h, applyData, hp1]
        · simp [Function.comp, h]

/-- A Prisma write preserves `createdAt ≤ updatedAt` for every stored row
and establishes it for the returned row, provided the write time is no
earlier than every stored `updatedAt` (the database clock is monotone). -/
lemma productUpdate_timestamps (db : DB) (t i : Nat) (d : UpdateData)
    (hts : ∀ p ∈ db.rows, p.createdAt ≤ p.updatedAt)
    (hclock : ∀ p ∈ db.rows, p.updatedAt ≤ t) :
    ∀ q db', productUpdate db t i d = some (q, db') →
      (∀ p ∈ db'.rows, p.createdAt ≤ p.updatedAt) ∧
      q.createdAt ≤ q.updatedAt := by
  intro q db' h
  unfold productUpdate at h
  cases hfind : db.rows.find? (fun p => p.id == i) with
  | none =>
    rw [hfind] at h
    cases h
  | some p1 =>
    rw [hfind] at h
    simp only [Option.some.injEq, Prod.mk.injEq] at h
    have hp1mem := List.mem_of_find?_eq_some hfind
    have hts1 : (applyData t d p1).createdAt ≤ (applyData t d p1).updatedAt := by
      simp only [applyData]
      exact le_trans (hts p1 hp1mem) (hclock p1 hp1mem)
    constructor
    · rw [← h.2]
      intro x hx
      obtain ⟨p, hp, rfl⟩ := List.mem_map.mp hx
      by_cases hpi : p.id = i
      · simpa [hpi] using hts1
      · simpa [hpi] using hts p hp
    · rw [← h.1]
      exact hts1

/-- The conclusion of C9: after each of the five operations, every stored
row, every returned row and every row of a `findAll` page satisfies
`createdAt ≤ updatedAt`. -/
def MonotonicTimestamps (db : DB) (t i : Nat) (cdto : CreateProductDto)
    (udto : UpdateProductDto) (pg : PaginationDto) : Prop :=
  (∀ p ∈ (ProductsService.create db t cdto).2.rows,
    p.createdAt ≤ p.updatedAt) ∧
  (ProductsService.create db t cdto).1.createdAt ≤
    (ProductsService.create db t cdto).1.updatedAt ∧
  (∀ p ∈ (ProductsService.update db t i udto).2.rows,
    p.createdAt ≤ p.updatedAt) ∧
  (∀ p ∈ (ProductsService.remove db t i).2.rows,
    p.createdAt ≤ p.updatedAt) ∧
  (∀ p, ProductsService.findOne db i = .ok p →
    p.createdAt ≤ p.updatedAt) ∧
  (∀ p ∈ (ProductsService.findAll db pg).data, p.createdAt ≤ p.updatedAt) ∧
  (∀ q db', ProductsService.update db t i udto = (.ok q, db') →
    q.createdAt ≤ q.updatedAt) ∧
  (∀ q db', ProductsService.remove db t i = (.ok q, db') →
    q.createdAt ≤ q.updatedAt)

/-- C9: `updatedAt ≥ createdAt` holds for every product after every
operation in scope, assuming it held before and the write happens no
earlier than every stored `updatedAt` (clock monotonicity). -/
theorem claim_C9_monotonic_timestamps (db : DB) (t i : Nat)
    (cdto : CreateProductDto) (udto : UpdateProductDto)
    (pg : PaginationDto)
    (hts : ∀ p ∈ db.rows, p.createdAt ≤ p.updatedAt)
    (hclock : ∀ p ∈ db.rows, p.updatedAt ≤ t) :
    MonotonicTimestamps db t i cdto udto pg := by
  have hmem_ts : ∀ p ∈ db.rows, p.createdAt ≤ p.updatedAt := hts
  have hupdate : ∀ d : UpdateData,
      (∀ p ∈ (match productUpdate db t i d with
        | none => ((.error .persistenceError : Except ServiceError Product),
            db)
        | some (p, db') => (.ok p, db')).2.rows,
        p.createdAt ≤ p.updatedAt) ∧
      (∀ q db', (match productUpdate db t i d with
        | none => ((.error .persistenceError : Except ServiceError Product),
            db)
        | some (p, db') => (.ok p, db')) = (.ok q, db') →
        q.createdAt ≤ q.updatedAt) := by
    intro d
    cases hpu : productUpdate db t i d with
    | none => exact ⟨hmem_ts, by intro q db' h; simp at h⟩
    | some r =>
      obtain ⟨q0, db0⟩ := r
      obtain ⟨h1, h2⟩ := productUpdate_timestamps db t i d hts hclock q0 db0 hpu
      refine ⟨h1, ?_⟩
      intro q db' h
      simp only [Prod.mk.injEq, Except.ok.injEq] at h
      exact h.1 ▸ h2
  refine ⟨?_, le_refl t, ?_, ?_, ?_, ?_, ?_, ?_⟩
  · intro p hp
    unfold ProductsService.create at hp
    rcases List.mem_append.mp hp with hmem | hmem
    · exact hts p hmem
    · have hp_eq : p =
          { id := db.nextId, name := cdto.name, price := cdto.price
            available := true, createdAt := t, updatedAt := t } := by
        simpa using hmem
      rw [hp_eq]
  · unfold ProductsService.update
    cases hfo : ProductsService.findOne db i with
    | error e => exact hts
    | ok p0 => exact (hupdate _).1
  · unfold ProductsService.remove
    cases hfo : ProductsService.findOne db i with
    | error e => exact hts
    | ok p0 => exact (hupdate _).1
  · intro p hok
    unfold ProductsService.findOne at hok
    cases hff : productFindFirst db i with
    | none =>
      rw [hff] at hok
      simp at hok
    | some p1 =>
      rw [hff] at hok
      simp only [Except.ok.injEq] at hok
      exact hok ▸ hts p1 (List.mem_of_find?_eq_some hff)
  · intro p hp
    unfold ProductsService.findAll at hp
    simp only at hp
    have hp2 : p ∈ availableRows db :=
      List.mem_of_mem_drop (List.mem_of_mem_take hp)
    exact hts p (List.mem_filter.mp hp2).1
  · unfold ProductsService.update
    cases hfo : ProductsService.findOne db i with
    | error e =>
      intro q db' h
      simp at h
    | ok p0 => exact (hupdate _).2
  · unfold ProductsService.remove
    cases hfo : ProductsService.findOne db i with
    | error e =>
      intro q db' h
      simp at h
    | ok p0 => exact (hupdate _).2

theorem claim_C9_witness :
    ((∀ p ∈ sampleDB.rows, p.createdAt ≤ p.updatedAt) ∧
      (∀ p ∈ sampleDB.rows, p.updatedAt ≤ 3)) ∧
    MonotonicTimestamps sampleDB 3 1 { name := "X", price := 1 }
      ⟨none, none, some 10⟩ ⟨some 1, some 10⟩ :=
  ⟨⟨by decide, by decide⟩,
    claim_C9_monotonic_timestamps sampleDB 3 1 { name := "X", price := 1 }
      ⟨none, none, some 10⟩ ⟨some 1, some 10⟩ (by decide) (by decide)⟩

/-- C10 counterexample: with the patch `{id: 2, price: 10}` against the
row with id 1, the TypeScript source (which strips `id` before the write)
and the compiled JavaScript (which passes the whole patch to the write)
produce different rows and different tables, so the claimed equivalence
for every patch is false. -/
theorem claim_C10_counterexample :
    (ProductsService.update sampleDB 5 1 ⟨some 2, none, some 10⟩).1 =
      .ok { sampleProduct with price := 10, updatedAt := 5 } ∧
    (ProductsService.distUpdate sampleDB 5 1 ⟨some 2, none, some 10⟩).1 =
      .ok { sampleProduct with id := 2, price := 10, updatedAt := 5 } ∧
    (ProductsService.update sampleDB 5 1 ⟨some 2, none, some 10⟩).2 ≠
      (ProductsService.distUpdate sampleDB 5 1 ⟨some 2, none, some 10⟩).2 :=
  ⟨rfl, rfl, by decide⟩

/-- C10 (amended): the source `update` and the compiled `update` agree
whenever the patch carries no `id` field or carries the target id itself —
which is exactly what the controller guarantees, since it always calls
`update(dto.id, dto)`. -/
theorem claim_C10_source_dist_equivalence (db : DB) (t i : Nat)
    (dto : UpdateProductDto) (h : dto.id = none ∨ dto.id = some i) :
    ProductsService.update db t i dto =
      ProductsService.distUpdate db t i dto := by
  unfold ProductsService.update ProductsService.distUpdate
  rcases h with h | h
  · rw [h]
  · rw [h]
    cases hfo : ProductsService.findOne db i with
    | error e => rfl
    | ok p0 =>
      unfold productUpdate
      cases hfind : db.rows.find? (fun q => q.id == i) with
      | none => rfl
      | some p1 =>
        have hp1 : p1.id = i := by simpa using List.find?_some hfind
        simp only [show applyData t ⟨some i, dto.name, dto.price, none⟩ p1 =
          applyData t ⟨none, dto.name, dto.price, none⟩ p1 by
            simp [applyData, hp1]]

theorem claim_C10_witness :
    ((⟨some 1, none, some 10⟩ : UpdateProductDto).id = none ∨
      (⟨some 1, none, some 10⟩ : UpdateProductDto).id = some 1) ∧
    ProductsService.update sampleDB 5 1 ⟨some 1, none, some 10⟩ =
      ProductsService.distUpdate sampleDB 5 1 ⟨some 1, none, some 10⟩ :=
  ⟨Or.inr rfl,
    claim_C10_source_dist_equivalence sampleDB 5 1 ⟨some 1, none, some 10⟩
      (Or.inr rfl)⟩
